import Mathlib

/-!
# Verification of the fisy transfer engine against its specification

This file is a shallow embedding, in Lean 4, of the parts of the fisy
file-tree synchronizer that the specification's claims talk about:

* the per-pair freshness predicates `fileNeedsTransfer` /
  `directoryNeedsTransfer` (`transfer/transfer.go`);
* the hardlink coordination set `linkSet` (`transfer/hardlink.go`);
* the parallel pair DFS state machine `filePairPDFSData`
  (`transfer/pdfs.go`);
* the idempotent retry helper `Idempotent` / `IsRetriable`
  (`remote/remote.go`);
* `Path.Resolve` (`fs/fs.go`), which is Go's `filepath.Join`;
* the COW snapshot constructor `NewCOW` (`fs/cow.go`);
* the per-pair transfer functions of `transfer/upload.go`
  (`transferFile`, `copyFile`, `createSymlink`, `makeDirectory`).

Go machine integers are modelled as `Nat`/`Int`; mode words are `Nat`
with explicit masking; errors are an inductive `GoErr` with the
`*os.PathError` / `*os.LinkError` envelopes as wrapper constructors;
Go's `nil`-able `os.FileInfo` arguments become `Option FileInfo`.
-/

namespace Fisy

/-! ## Errors

`GoErr` models the error values that flow through the engine:
the `os` sentinel errors, the two transient SFTP transport errors
from `github.com/pkg/sftp`, an SFTP status error with its code,
the context-cancellation error, the internal `errDiscarded` signal
of `transfer/upload.go`, and an opaque "some other error" used by
the tests (`errMocked`).  `pathError`/`linkError` model wrapping in
`*os.PathError` / `*os.LinkError`. -/

inductive GoErr where
  | notFound
  | permission
  | alreadyExists
  | sshFxConnectionLost
  | sshFxNoConnection
  | ctxCanceled
  | discarded
  | hostIsEmpty
  | needNewerTimestamp
  | mocked
  | sftpStatus (code : Nat)
  | pathError (e : GoErr)
  | linkError (e : GoErr)
deriving DecidableEq, Repr

/-- Strip one `*os.PathError` envelope, as `if e, ok := err.(*os.PathError)`. -/
def stripPathError : GoErr → GoErr
  | .pathError e => e
  | e => e

/-- Strip one `*os.LinkError` envelope. -/
def stripLinkError : GoErr → GoErr
  | .linkError e => e
  | e => e

/-- `os.IsNotExist`: true on the not-found sentinel, also inside a
path/link-error envelope (Go inspects the embedded syscall error). -/
def osIsNotExist (e : GoErr) : Bool :=
  stripPathError (stripLinkError e) == .notFound

/-- `os.IsPermission`, same envelope handling as `osIsNotExist`. -/
def osIsPermission (e : GoErr) : Bool :=
  stripPathError (stripLinkError e) == .permission

/-- `fs.IsNotExist` from `fs/errors.go`: `os.IsNotExist`, or an SFTP
status error with code 2 (`ssh_FX_NO_SUCH_FILE`) after unwrapping the
path/link-error envelopes. -/
def IsNotExist (e : GoErr) : Bool :=
  if osIsNotExist e then true
  else
    match stripLinkError (stripPathError e) with
    | .sftpStatus c => c == 2
    | _ => false

/-- `fs.IsPermission` from `fs/errors.go`: `os.IsPermission`, or an
SFTP status error with code 3 (`ssh_FX_PERMISSION_DENIED`). -/
def IsPermission (e : GoErr) : Bool :=
  if osIsPermission e then true
  else
    match stripLinkError (stripPathError e) with
    | .sftpStatus c => c == 3
    | _ => false

/-! ## FileInfo and the freshness predicates (`transfer/transfer.go`)

`FileInfo` carries the fields the predicates read: `Size()` (bytes,
`int64`), `Mode()` (an `os.FileMode` word; bit 31 is `ModeDir`, bit 27
is `ModeSymlink`, the low 9 bits are the permissions) and `ModTime()`
(modelled in nanoseconds, the resolution of `time.Time` differences). -/

/-- `fs.FileAttrs`, the system attributes extracted by
`fs.FileAttrsFromFileInfo`: uid/gid, access time, inode and link
count.  Backends that do not populate them yield `none` at the
`FileInfo` level. -/
structure FileAttrs where
  uid : Int
  gid : Int
  atimeNs : Int
  inode : Nat
  nlinks : Nat
deriving DecidableEq, Repr

structure FileInfo where
  size : Int
  mode : Nat
  mtimeNs : Int
  attrs : Option FileAttrs := none
deriving DecidableEq, Repr

/-- `os.ModeDir` is bit 31 of the mode word. -/
def modeDir : Nat := 2 ^ 31

/-- `os.ModeSymlink` is bit 27 of the mode word. -/
def modeSymlink : Nat := 2 ^ 27

/-- `commonModeMask os.FileMode = os.ModePerm`: the non-special mode
bits to transfer (user/group/other rwx). -/
def commonModeMask : Nat := 0o777

/-- `fi.IsDir()`: the directory type bit is set. -/
def FileInfo.isDir (fi : FileInfo) : Bool :=
  fi.mode &&& modeDir != 0

/-- `fi.Mode()&os.ModeSymlink != 0`. -/
def FileInfo.isSymlink (fi : FileInfo) : Bool :=
  fi.mode &&& modeSymlink != 0

/-- `time.Second` in the nanosecond unit of mtime differences. -/
def oneSecondNs : Int := 1000000000

/-- `fileNeedsTransfer` (`transfer/transfer.go:91`): true if the source
and destination are different.  `md` is the absolute mtime difference;
transfer is needed iff size or masked mode differ or `md > 1s`. -/
def fileNeedsTransfer (dest : Option FileInfo) (src : FileInfo) : Bool :=
  match dest with
  | none => true
  | some d =>
    d.size != src.size ||
    d.mode &&& commonModeMask != src.mode &&& commonModeMask ||
    (d.mtimeNs - src.mtimeNs).natAbs > oneSecondNs.natAbs

/-- `a &^ b` on a 32-bit mode word: AND with the 32-bit complement. -/
def bitClear32 (a b : Nat) : Nat :=
  a &&& (0xFFFFFFFF ^^^ b)

/-- `directoryNeedsTransfer` (`transfer/transfer.go:105`): owner-write
(0200) is forced on every directory the engine writes, so it is ignored
when comparing the masked modes. -/
def directoryNeedsTransfer (dest : Option FileInfo) (src : FileInfo) : Bool :=
  match dest with
  | none => true
  | some d =>
    bitClear32 (d.mode &&& commonModeMask) 0o200 !=
      bitClear32 (src.mode &&& commonModeMask) 0o200

end Fisy

namespace Fisy

/-! ### C1: the regular-file equivalence predicate -/

/-- C1 helper: the claim's Keep condition for a regular-file pair. -/
def fileKeepCond (d s : FileInfo) : Prop :=
  d.size = s.size ∧
  d.mode &&& commonModeMask = s.mode &&& commonModeMask ∧
  (d.mtimeNs - s.mtimeNs).natAbs ≤ 1000000000

instance (d s : FileInfo) : Decidable (fileKeepCond d s) := by
  unfold fileKeepCond; infer_instance

/-! ## Destination operations and statistics deltas

The per-pair transfer functions of `transfer/upload.go` are embedded
as pure functions that return, besides their error result, the list of
operations they issued against the destination file system and the
statistics counters they incremented.  The environment structures
below stand for the outcomes the destination backend produces. -/

inductive FsOp where
  | mkdir (path : String) (mode : Nat) (uid gid : Int)
  | chmod (path : String) (mode : Nat)
  | lchown (path : String) (uid gid : Int)
  | remove (path : String)
  | removeAll (path : String)
  | keepOp (path : String)
  | create (path : String)
  | link (oldpath newpath : String)
  | symlink (target newpath : String)
  | chtimes (path : String)
deriving DecidableEq, Repr

/-- The statistics counters the per-pair functions touch (all are
atomic `uint64` increments in the Go code). -/
structure StatsDelta where
  uploadedBytes : Nat := 0
  uploadedFiles : Nat := 0
  createdDirectories : Nat := 0
  updatedDirectories : Nat := 0
  keptBytes : Nat := 0
  keptFiles : Nat := 0
  keptDirectories : Nat := 0
  removedFiles : Nat := 0
  removedDirectories : Nat := 0
  discardedFiles : Nat := 0
deriving DecidableEq, Repr

/-- Outcomes of the destination calls `makeDirectory` can issue. -/
structure DirEnv where
  mkdirRes : Option GoErr
  chmodRes : Option GoErr
  lchownRes : Option GoErr
deriving DecidableEq, Repr

/-- The uid recorded for the source, `-1` when the backend gave no
system attributes (`fs.FileAttrsFromFileInfo` returned `!ok`). -/
def srcUid (src : FileInfo) : Int :=
  match src.attrs with
  | some a => a.uid
  | none => -1

/-- The gid recorded for the source, `-1` when absent. -/
def srcGid (src : FileInfo) : Int :=
  match src.attrs with
  | some a => a.gid
  | none => -1

/-- `Upload.makeDirectory` (`transfer/upload.go:669`): create the
directory when there is no destination entry (counting it created),
otherwise chmod + lchown it (counting it updated).  Every mode it
writes is `src.Mode()&commonModeMask|0200`: owner-write is forced so
the engine can keep writing inside the directory. -/
def makeDirectory (path : String) (src : FileInfo) (dest : Option FileInfo)
    (env : DirEnv) : Option GoErr × List FsOp × StatsDelta :=
  let mode := src.mode &&& commonModeMask ||| 0o200
  match dest with
  | none =>
    (env.mkdirRes, [.mkdir path mode (srcUid src) (srcGid src)],
      { createdDirectories := 1 })
  | some _ =>
    match env.chmodRes with
    | some e => (some e, [.chmod path mode], {})
    | none =>
      match env.lchownRes with
      | some e => (some e, [.chmod path mode, .lchown path (srcUid src) (srcGid src)], {})
      | none =>
        (none, [.chmod path mode, .lchown path (srcUid src) (srcGid src)],
          { updatedDirectories := 1 })

/-- C8 helper: an operation "writes a directory mode with owner-write
forced on" when, if it is a mkdir or chmod, the mode's owner-write bit
(bit 7, the 0200 bit) is set. -/
def opForcesOwnerWrite : FsOp → Bool
  | .mkdir _ m _ _ => m.testBit 7
  | .chmod _ m => m.testBit 7
  | _ => true

/-! ## The parallel pair DFS (`transfer/pdfs.go`)

`filePairPDFSData` holds a LIFO stack of pairs, the number of
in-flight workers `nact` (a Go `int`), and a `failed` flag, all under
one lock with a condition variable.  `take` is split at its
`cond.Wait` loop: `takeBlocked` is the loop's guard, and `take` is the
function's behavior once the guard is false. -/

/-- `filePair` (`transfer/transfer.go:39`): the path with optional
source and destination `FileInfo` (at least one present in practice). -/
structure FilePair where
  path : String
  src : Option FileInfo := none
  dest : Option FileInfo := none
deriving DecidableEq, Repr

/-- The shared mutable state of `filePairPDFSData`. -/
structure PDFSState where
  stack : List FilePair
  nact : Int
  failed : Bool
deriving DecidableEq, Repr

/-- The guard of `take`'s wait loop:
`len(dfs.stack) == 0 && dfs.nact > 0 && !dfs.failed`. -/
def takeBlocked (s : PDFSState) : Bool :=
  s.stack.isEmpty && decide (0 < s.nact) && !s.failed

/-- `take` (`transfer/pdfs.go`), after the wait loop has exited: if
failed or the stack is empty, no pair; otherwise pop the top of the
LIFO stack (the slice's last element) and increment `nact`. -/
def take (s : PDFSState) : Option FilePair × PDFSState :=
  if s.failed then (none, s)
  else if s.stack.isEmpty then (none, s)
  else (s.stack.getLast?,
    { stack := s.stack.dropLast, nact := s.nact + 1, failed := s.failed })

/-- `give`: push the children onto the stack, release the worker. -/
def give (s : PDFSState) (fps : List FilePair) : PDFSState :=
  { stack := s.stack ++ fps, nact := s.nact - 1, failed := s.failed }

/-- `fail`: release the worker and latch the failure flag. -/
def failDFS (s : PDFSState) : PDFSState :=
  { stack := s.stack, nact := s.nact - 1, failed := true }

/-! ## The inode coordination set (`transfer/hardlink.go`)

The `linkSet` maps a source inode to an `inodeInfo` record.  Every
operation acts on the record of one inode, so the embedding works on
that single slot, an `Option inodeInfo` (`none` = no record).  The
`cond.Wait` loop of `FinishedFile` is modelled by a distinguished
`blocked` outcome. -/

/-- `inodeInfo`: `path` is the materializer's path (`first_path`),
`nlink` the remaining link count (a Go `int`). -/
structure inodeInfo where
  path : String
  uploaded : Bool
  nlink : Int
deriving DecidableEq, Repr

/-- `decrementLink`: decrement the link count and delete the record
when it reaches exactly zero. -/
def decrementLink (r : inodeInfo) : Option inodeInfo :=
  if r.nlink - 1 = 0 then none else some { r with nlink := r.nlink - 1 }

/-- `Fulfill`: mark the destination ready and decrement.  Go
dereferences the record unconditionally, so it is defined on a present
record. -/
def Fulfill (r : inodeInfo) : Option inodeInfo :=
  decrementLink { r with uploaded := true }

/-- `Discard`: clear `first_path` when it is the caller's path, then
decrement, letting another goroutine take over the transfer. -/
def Discard (r : inodeInfo) (path : String) : Option inodeInfo :=
  decrementLink (if r.path = path then { r with path := "" } else r)

/-- `offerLocked`: record the file if it is interesting (not a
directory, has system attributes, at least two links); returns the
source inode, zero when not interesting. -/
def offerLocked (slot : Option inodeInfo) (src : FileInfo) :
    Nat × Option inodeInfo :=
  if src.isDir then (0, slot)
  else
    match src.attrs with
    | none => (0, slot)
    | some a =>
      if a.nlinks < 2 then (0, slot)
      else
        match slot with
        | none =>
          (a.inode, some { path := "", uploaded := false, nlink := (a.nlinks : Int) })
        | some r => (a.inode, some r)

/-- The result of `FinishedFile`: either the returned
`(inode, firstPath)` pair, or `blocked` for a caller that entered the
`cond.Wait` loop (record claimed but not yet uploaded). -/
inductive FFRes where
  | ret (inode : Nat) (firstPath : String)
  | blocked
deriving DecidableEq, Repr

/-- `FinishedFile` (`transfer/hardlink.go:95`).  For a nonzero inode,
`offerLocked` always leaves a record in the slot; the `none` branch
below is Go's nil-map dereference and is unreachable. -/
def FinishedFile (slot : Option inodeInfo) (path : String) (src : FileInfo) :
    FFRes × Option inodeInfo :=
  match offerLocked slot src with
  | (inode, slot2) =>
    if inode = 0 then (.ret 0 "", slot2)
    else
      match slot2 with
      | none => (.ret 0 "", none)
      | some r =>
        if !r.uploaded then
          if r.path = "" then (.ret inode "", some { r with path := path })
          else (.blocked, some r)
        else (.ret inode r.path, decrementLink r)

/-- The remaining link count of a slot; an absent record counts 0,
matching "the record is removed exactly when it reaches zero". -/
def remNlinks : Option inodeInfo → Int
  | none => 0
  | some r => r.nlink

/-! ## The idempotent retry helper (`remote/remote.go`) -/

/-- `IsRetriable` (`remote/remote.go:33`): unwrap an `*os.LinkError`
envelope, then an `*os.PathError` envelope; retriable iff the
underlying error is `sftp.ErrSshFxConnectionLost` or
`sftp.ErrSshFxNoConnection`. -/
def IsRetriable (e : GoErr) : Bool :=
  match stripPathError (stripLinkError e) with
  | .sshFxConnectionLost => true
  | .sshFxNoConnection => true
  | _ => false

/-- `initialDelay = 300 * time.Millisecond`, in milliseconds. -/
def initialDelay : Nat := 300

/-- `maxDelay = 1 * time.Minute`, in milliseconds. -/
def maxDelay : Nat := 60000

/-- The delay slept before the k-th retry.  The Go loop sleeps `delay`
and then doubles it, capping at `maxDelay`, so the slept delays are
300 ms, doubling, capped at one minute. -/
def backoffDelay : Nat → Nat
  | 0 => initialDelay
  | k + 1 => min (2 * backoffDelay k) maxDelay

/-- The overall outcome of `Idempotent`. -/
inductive IdemOutcome where
  | ok
  | fail (e : GoErr)
deriving DecidableEq, Repr

/-- One execution of the `Idempotent` loop (`remote/remote.go:54`),
attempt by attempt.  `attempt k` is the error `fun()` returns on its
k-th call (`none` = success); `cancelAt k` says whether the context is
done during the back-off following attempt `k` (the `select`).
`fuel` bounds the iterations so the function is total; `none` means
the loop was still running when the fuel ran out.  The returned list
records the delays slept, in order. -/
def idempotentLoop (attempt : Nat → Option GoErr) (cancelAt : Nat → Bool) :
    Nat → Nat → Nat → List Nat → Option (IdemOutcome × List Nat)
  | 0, _, _, _ => none
  | fuel + 1, k, delay, slept =>
    match attempt k with
    | none => some (.ok, slept)
    | some e =>
      if ! IsRetriable e then some (.fail e, slept)
      else if cancelAt k then some (.fail .ctxCanceled, slept)
      else
        idempotentLoop attempt cancelAt fuel (k + 1)
          (min (2 * delay) maxDelay) (slept ++ [delay])

/-- `Idempotent`: run the loop from the first attempt with the initial
300 ms delay. -/
def Idempotent (attempt : Nat → Option GoErr) (cancelAt : Nat → Bool)
    (fuel : Nat) : Option (IdemOutcome × List Nat) :=
  idempotentLoop attempt cancelAt fuel 0 initialDelay []

/-! ## Path and `filepath.Join` (`fs/fs.go`)

`Path.Resolve(pp)` is `filepath.Join(string(p), string(pp))`.  Go's
`Join` concatenates the elements with the separator and runs `Clean`.
`Clean` is embedded component-wise on character lists: split the path
on the separator, drop empty and `.` components, let `..` cancel a
preceding real component (at the root of a rooted path it vanishes; at
the head of a relative path it is kept), and join what remains. -/

/-- Split a character list on the separator character.  Like Go's
`strings.Split`, the result is never empty and a trailing separator
yields a trailing empty component. -/
def splitSlash : List Char → List (List Char)
  | [] => [[]]
  | c :: rest =>
    if c = '/' then [] :: splitSlash rest
    else
      match splitSlash rest with
      | [] => [[c]]
      | comp :: comps => (c :: comp) :: comps

/-- The component processing of `filepath.Clean` (unix rules); `acc`
is the reversed output stack. -/
def cleanComps (rooted : Bool) : List (List Char) → List (List Char) → List (List Char)
  | [], acc => acc.reverse
  | c :: rest, acc =>
    if c = [] ∨ c = ['.'] then cleanComps rooted rest acc
    else if c = ['.', '.'] then
      match acc with
      | [] =>
        if rooted then cleanComps rooted rest []
        else cleanComps rooted rest [c]
      | top :: acc2 =>
        if top = ['.', '.'] then cleanComps rooted rest (c :: top :: acc2)
        else cleanComps rooted rest acc2
    else cleanComps rooted rest (c :: acc)

/-- Join components back with separators. -/
def joinComps : List (List Char) → List Char
  | [] => []
  | [c] => c
  | c :: rest => c ++ '/' :: joinComps rest

/-- Go `path/filepath.Clean` (unix) on a character list: `rooted` is
whether the path starts with the separator; an empty result is "."
(or "/" when rooted). -/
def cleanChars (s : List Char) : List Char :=
  if s = [] then ['.']
  else if s.head? == some '/' then
    '/' :: joinComps (cleanComps true (splitSlash s) [])
  else if cleanComps false (splitSlash s) [] = [] then ['.']
  else joinComps (cleanComps false (splitSlash s) [])

/-- Go `filepath.Join` restricted to two elements: skip leading empty
elements, join with the separator, `Clean` the result. -/
def joinChars (p q : List Char) : List Char :=
  if p = [] then
    if q = [] then [] else cleanChars q
  else cleanChars (p ++ '/' :: q)

/-- `Path.Resolve` (`fs/fs.go:106`):
`filepath.Join(string(p), string(pp))`. -/
def Path.Resolve (p pp : String) : String :=
  String.mk (joinChars p.data pp.data)

/-- The first component of a path string: the characters before the
first separator. -/
def firstComp (s : String) : String :=
  String.mk (s.data.takeWhile (fun c => c != '/'))

/-- Go `filepath.Base`: "." for the empty path, otherwise drop
trailing separators and keep the last component; "/" when nothing
remains. -/
def PathBase (p : String) : String :=
  if p.data = [] then "."
  else
    let r := p.data.reverse.dropWhile (fun c => c == '/')
    if r = [] then "/"
    else String.mk ((r.takeWhile (fun c => c != '/')).reverse)

/-! ## COW snapshot construction (`fs/cow.go`)

Modelled from the spec: the current `NewCOW`, with its sanity checks,
is code of this repository that is not under `src/` — `src/fs/cow.go`
holds two earlier revisions without the checks, while
`src/fs/cow_test.go` pins the newer behavior (`ErrHostIsEmpty`, an
error containing "newer timestamp").  The model follows §4.7 of the
spec: try the per-host `.latest` link; on not-found fall back to the
global `.latest` used verbatim; on not-found again use `<host>/<ts>`;
then require `ts` to compare strictly greater, as a string, than the
base name of the chosen read root; on success
`write_root = <host>/<ts>`. -/

/-- Outcome of a `Readlink` call during COW construction. -/
inductive ReadlinkRes where
  | found (p : String)
  | notFoundErr
  | failed (e : GoErr)
deriving DecidableEq, Repr

/-- The two roots a constructed COW snapshot holds. -/
structure COWRoots where
  rroot : String
  wroot : String
deriving DecidableEq, Repr

/-- Go's `<` on strings: lexicographic comparison, here on the
character lists (the timestamps compared are ASCII). -/
def strLt : List Char → List Char → Bool
  | [], [] => false
  | [], _ :: _ => true
  | _ :: _, [] => false
  | a :: as, b :: bs =>
    if a < b then true
    else if b < a then false
    else strLt as bs

/-- Modelled from the spec: choosing the read root (§4.7 step 2). -/
def cowReadRoot (host ts : String) (hostLatest globalLatest : ReadlinkRes) :
    Except GoErr String :=
  match hostLatest with
  | .found p => .ok (Path.Resolve host p)
  | .notFoundErr =>
    match globalLatest with
    | .found p => .ok p
    | .notFoundErr => .ok (Path.Resolve host ts)
    | .failed e => .error e
  | .failed e => .error e

/-- Modelled from the spec: `NewCOW` (§4.7).  `ts` is the formatted
timestamp `format(t, "YYYY-MM-DDTHH-MM-SS.uuuuuu")`. -/
def NewCOW (host ts : String) (hostLatest globalLatest : ReadlinkRes) :
    Except GoErr COWRoots :=
  if host = "" then .error .hostIsEmpty
  else
    match cowReadRoot host ts hostLatest globalLatest with
    | .error e => .error e
    | .ok rroot =>
      if strLt (PathBase rroot).data ts.data then
        .ok { rroot := rroot, wroot := Path.Resolve host ts }
      else .error .needNewerTimestamp

/-! ## The per-pair file transfer (`transfer/upload.go`)

Modelled from the spec: the current `transferFile`, `createSymlink`
and `copyFile` — with the internal `errDiscarded` signal and the
fulfill-or-discard scope exit — are code of this repository that is
not under `src/`; `src/transfer/upload.go` holds two earlier
revisions, while `src/transfer/upload_test.go` pins the newer
behavior (`errDiscarded`, `TransferRetries`, a failed materializer
leaving `uploaded=false`).  The functions below follow §4.4 of the
spec and run against the `linkSet` of `src/unnamed/part_002` embedded
above.  The `FileEnv` record stands for the outcomes of the backend
calls the transfer issues. -/

structure FileEnv where
  openRes : Option GoErr
  readlinkRes : Except GoErr String
  removeRes : Option GoErr
  linkRes : Option GoErr
  symlinkRes : Option GoErr
  keepRes : Option GoErr
  createRes : Option GoErr
  createRetryRes : Option GoErr
  chmodRes : Option GoErr
  copyRes : Option GoErr
  chownRes : Option GoErr
  closeRes : Option GoErr
  chtimesRes : Option GoErr
deriving Repr

/-- Modelled from the spec: `createSymlink` — read the link target; a
not-found source vanished between listing and transfer: count it
discarded and return the internal discarded signal; otherwise count
the target's bytes and the file and create the symlink. -/
def createSymlink (path : String) (env : FileEnv) :
    Option GoErr × List FsOp × StatsDelta :=
  match env.readlinkRes with
  | .error e =>
    if IsNotExist e then (some .discarded, [], { discardedFiles := 1 })
    else (some e, [], {})
  | .ok target =>
    (env.symlinkRes, [.symlink target path],
      { uploadedBytes := target.length, uploadedFiles := 1 })

/-- Modelled from the spec: the guarded scope of `copyFile` after the
destination file is created (chmod, byte copy, chown when system
attributes are present, close, chtimes), removing the partial file and
propagating on any error, else counting the uploaded bytes and file. -/
def copyBody (path : String) (src : FileInfo) (env : FileEnv)
    (ops : List FsOp) : Option GoErr × List FsOp × StatsDelta :=
  let inner : Option GoErr :=
    match env.chmodRes with
    | some e => some e
    | none =>
      match env.copyRes with
      | some e => some e
      | none =>
        match src.attrs with
        | some _ => env.chownRes
        | none => none
  match inner with
  | some e => (some e, ops ++ [.remove path], {})
  | none =>
    match env.closeRes with
    | some e => (some e, ops ++ [.remove path], {})
    | none =>
      match env.chtimesRes with
      | some e => (some e, ops ++ [.chtimes path, .remove path], {})
      | none =>
        (none, ops ++ [.chtimes path],
          { uploadedBytes := src.size.toNat, uploadedFiles := 1 })

/-- Modelled from the spec: `copyFile` — open the source; a not-found
source vanished between listing and transfer: count it discarded and
return the internal discarded signal; create the destination, retrying
once after a remove when create is denied; then run the guarded
copy. -/
def copyFile (path : String) (src : FileInfo) (env : FileEnv) :
    Option GoErr × List FsOp × StatsDelta :=
  match env.openRes with
  | some e =>
    if IsNotExist e then (some .discarded, [], { discardedFiles := 1 })
    else (some e, [], {})
  | none =>
    match env.createRes with
    | some e =>
      if IsPermission e then
        match env.createRetryRes with
        | some e2 => (some e2, [.create path, .remove path, .create path], {})
        | none => copyBody path src env [.create path, .remove path, .create path]
      else (some e, [.create path], {})
    | none => copyBody path src env [.create path]

/-- Modelled from the spec: the body of `transferFile` after the
linkSet bookkeeping — try `Keep` when the destination is present and
equivalent (falling back to a normal transfer when `Keep` errs), then
dispatch on symlink vs regular file. -/
def transferBody (fp : FilePair) (src : FileInfo) (env : FileEnv) :
    Option GoErr × List FsOp × StatsDelta :=
  match fp.dest with
  | some d =>
    if ! fileNeedsTransfer (some d) src then
      match env.keepRes with
      | none =>
        (none, [.keepOp fp.path], { keptBytes := d.size.toNat, keptFiles := 1 })
      | some _ =>
        let t := if src.isSymlink then createSymlink fp.path env
          else copyFile fp.path src env
        (t.1, .keepOp fp.path :: t.2.1, t.2.2)
    else
      if src.isSymlink then createSymlink fp.path env
      else copyFile fp.path src env
  | none =>
    if src.isSymlink then createSymlink fp.path env
    else copyFile fp.path src env

/-- The result of one `transferFile` call: its error (after the
discarded signal is swallowed), the inode slot after the scope-exit
bookkeeping, the destination operations issued and the counters
incremented — or `blockedWait` for a subsequent holder that entered
the `FinishedFile` wait. -/
inductive TFRes where
  | done (err : Option GoErr) (slot : Option inodeInfo)
      (ops : List FsOp) (stats : StatsDelta)
  | blockedWait
deriving DecidableEq, Repr

/-- Modelled from the spec: `transferFile` (§4.4).  Removal when the
source is absent; `FinishedFile` offer; hardlink to the first path for
a subsequent holder; for the materializer, on scope exit `Fulfill`
when the body returned success or the discarded signal, otherwise
`Discard` with its path; the discarded signal is swallowed in the
per-file path. -/
def transferFile (fp : FilePair) (slot : Option inodeInfo) (env : FileEnv) :
    TFRes :=
  match fp.src with
  | none => .done env.removeRes slot [.remove fp.path] { removedFiles := 1 }
  | some src =>
    match FinishedFile slot fp.path src with
    | (.blocked, _) => .blockedWait
    | (.ret inode firstPath, slot2) =>
      if inode ≠ 0 ∧ firstPath ≠ "" then
        .done env.linkRes slot2 [.link firstPath fp.path] { uploadedFiles := 1 }
      else
        let body := transferBody fp src env
        let slot3 :=
          if inode = 0 then slot2
          else
            match slot2 with
            | some r =>
              if body.1 = none ∨ body.1 = some .discarded then Fulfill r
              else Discard r fp.path
            | none => none
        .done (if body.1 = some .discarded then none else body.1)
          slot3 body.2.1 body.2.2

/-! ## The traversal driver (`transfer/process.go`, `transfer/pdfs.go`)

`filePairPDFS` spawns `nconc` copies of `loop` in an errgroup.  The
embedding makes the interleaving explicit: a system state holds the
shared DFS state and each worker's phase, and a schedule (a list of
worker indices) chooses who advances; the log records the pairs the
user function ran on.  The context is not cancelled in the scenarios
modelled here, so `loop`'s `ctx.Err()` is `none`. -/

/-- A worker of `filePairPDFS.loop`: waiting to `take`, running the
user function on a pair, or returned. -/
inductive WorkerPhase where
  | ready
  | running (fp : FilePair)
  | done (res : Option GoErr)
deriving DecidableEq, Repr

/-- The whole `filePairPDFS` system. -/
structure PDFSSys where
  st : PDFSState
  workers : List WorkerPhase
  log : List FilePair
deriving Repr

/-- `filePairPDFS` start state (`src/unnamed/part_005:102`): the roots
on the stack, no in-flight work, `nconc` idle workers. -/
def pdfsInit (roots : List FilePair) (nconc : Nat) : PDFSSys :=
  { st := { stack := roots, nact := 0, failed := false },
    workers := List.replicate nconc .ready,
    log := [] }

/-- One scheduling step: worker `i` advances (no-op for an index with
no worker, a blocked `take`, or a finished worker). -/
def pdfsStep (fn : FilePair → List FilePair × Option GoErr)
    (sys : PDFSSys) (i : Nat) : PDFSSys :=
  match sys.workers.get? i with
  | none => sys
  | some .ready =>
    if takeBlocked sys.st then sys
    else
      match take sys.st with
      | (none, st2) =>
        { sys with st := st2, workers := sys.workers.set i (.done none) }
      | (some fp, st2) =>
        { sys with st := st2, workers := sys.workers.set i (.running fp) }
  | some (.running fp) =>
    match fn fp with
    | (fps, none) =>
      { sys with
        st := give sys.st fps
        workers := sys.workers.set i .ready
        log := sys.log ++ [fp] }
    | (_, some e) =>
      { sys with
        st := failDFS sys.st
        workers := sys.workers.set i (.done (some e))
        log := sys.log ++ [fp] }
  | some (.done _) => sys

/-- Run a schedule of worker steps. -/
def pdfsExec (fn : FilePair → List FilePair × Option GoErr)
    (sys : PDFSSys) (sched : List Nat) : PDFSSys :=
  sched.foldl (pdfsStep fn) sys

/-- `errgroup.Wait`: the first error any worker returned, if any. -/
def egWait (sys : PDFSSys) : Option GoErr :=
  (sys.workers.filterMap (fun w =>
    match w with
    | .done (some e) => some e
    | _ => none)).head?

/-- The configuration `NewUpload` (`transfer/upload.go:455`) builds:
the fields start at their Go zero values — in particular `nconc` is 0
— and each option is applied in order. -/
structure UploadConfig where
  nconc : Nat := 0
  hasIgnoreFilter : Bool := false
deriving DecidableEq, Repr

/-- An option to `NewUpload`. -/
def UploadOpt := UploadConfig → UploadConfig

/-- `WithConcurrency` sets the worker count (the Go function crashes
the process for `nconc < 1`, so it is only ever applied with a
positive count). -/
def WithConcurrency (n : Nat) : UploadOpt := fun c => { c with nconc := n }

/-- `WithIgnoreFilter` installs a filter function. -/
def WithIgnoreFilter : UploadOpt := fun c => { c with hasIgnoreFilter := true }

/-- `NewUpload` applies the options to the zero-valued configuration. -/
def NewUpload (opts : List UploadOpt) : UploadConfig :=
  opts.foldl (fun c o => o c) {}

/-- `process.Run` (`transfer/process.go:28`): list the root directory
on both file systems (outcome `listing`), return its error if any;
otherwise run `filePairPDFS` over the root pairs with `nconc` workers
under a schedule.  Returns the run's error and the pairs the per-pair
transfer callback was invoked on. -/
def processRun (listing : Except GoErr (List FilePair)) (nconc : Nat)
    (fn : FilePair → List FilePair × Option GoErr) (sched : List Nat) :
    Option GoErr × List FilePair :=
  match listing with
  | .error e => (some e, [])
  | .ok fps =>
    let sys := pdfsExec fn (pdfsInit fps nconc) sched
    (egWait sys, sys.log)

end Fisy

/-- C1: for every pair of regular-file FileInfos, `fileNeedsTransfer`
classifies the pair as needing no transfer (Keep) iff the sizes are
equal, the low permission bits match, and the mtimes differ by at most
one second; in particular a difference of exactly one second with equal
size and permission bits is Kept (the tolerance is inclusive). -/
theorem C1_file_keep_iff (d s : Fisy.FileInfo) :
    (Fisy.fileNeedsTransfer (some d) s = false ↔ Fisy.fileKeepCond d s) ∧
    (d.size = s.size →
      d.mode &&& Fisy.commonModeMask = s.mode &&& Fisy.commonModeMask →
      (d.mtimeNs - s.mtimeNs).natAbs = 1000000000 →
      Fisy.fileNeedsTransfer (some d) s = false) := by
  constructor
  · simp [Fisy.fileNeedsTransfer, Fisy.fileKeepCond, Fisy.oneSecondNs]
    omega
  · intro h1 h2 h3
    simp [Fisy.fileNeedsTransfer, Fisy.oneSecondNs, h1, h2, h3]

/-- C1 witness: a concrete pair whose mtimes differ by exactly one
second, with matching size and permissions, is Kept. -/
theorem C1_file_keep_iff_witness :
    Fisy.fileNeedsTransfer
      (some { size := 6, mode := 0o644, mtimeNs := 1000000000 })
      { size := 6, mode := 0o644, mtimeNs := 0 } = false :=
  (C1_file_keep_iff
    { size := 6, mode := 0o644, mtimeNs := 1000000000 }
    { size := 6, mode := 0o644, mtimeNs := 0 }).2
    (by decide) (by decide) (by decide)

namespace Fisy

/-- Masking bridge: the code's `mode&commonModeMask&^0200` equals a
single mask with the owner-write bit removed from the permission
bits. -/
theorem bitClear32_land_perm (x : Nat) :
    bitClear32 (x &&& commonModeMask) 0o200 = x &&& 0o577 := by
  unfold bitClear32 commonModeMask
  rw [Nat.land_assoc]
  rw [show (0o777 &&& (0xFFFFFFFF ^^^ 0o200) : Nat) = 0o577 from by decide]

set_option maxRecDepth 4096 in
/-- Flipping the owner-write bit is invisible under the
owner-write-less mask. -/
theorem xor_owner_write_land : ∀ a : Nat, a < 512 →
    (a ^^^ 0o200) &&& 0o577 = a &&& 0o577 := by
  decide

/-- Re-associating the double mask of the permission bits. -/
theorem land_perm_noww (x : Nat) :
    (x &&& 0o777) &&& 0o577 = x &&& 0o577 := by
  rw [Nat.land_assoc]
  rw [show (0o777 &&& 0o577 : Nat) = 0o577 from by decide]

end Fisy

/-- C8: a directory pair is classified as equivalent (Keep) iff the low
permission bits of dest and src match after ignoring the owner-write
bit; a directory whose mode differs from the source by exactly the
owner-write bit is Kept; and every directory mode `makeDirectory`
writes via mkdir or chmod has the owner-write bit forced on. -/
theorem C8_dir_keep_ignores_owner_write (d s : Fisy.FileInfo) :
    (Fisy.directoryNeedsTransfer (some d) s = false ↔
      d.mode &&& 0o577 = s.mode &&& 0o577) ∧
    (d.mode &&& 0o777 = (s.mode &&& 0o777) ^^^ 0o200 →
      Fisy.directoryNeedsTransfer (some d) s = false) ∧
    (∀ (path : String) (dest : Option Fisy.FileInfo) (env : Fisy.DirEnv),
      ∀ op ∈ (Fisy.makeDirectory path s dest env).2.1,
        Fisy.opForcesOwnerWrite op = true) := by
  have hiff : Fisy.directoryNeedsTransfer (some d) s = false ↔
      d.mode &&& 0o577 = s.mode &&& 0o577 := by
    simp [Fisy.directoryNeedsTransfer, Fisy.bitClear32_land_perm]
  refine ⟨hiff, ?_, ?_⟩
  · intro h
    rw [hiff, ← Fisy.land_perm_noww d.mode, h,
      Fisy.xor_owner_write_land _ ?_, Fisy.land_perm_noww]
    exact Nat.lt_succ_of_le (Nat.and_le_right)
  · intro path dest env op hop
    have hbit : (s.mode &&& Fisy.commonModeMask ||| 0o200).testBit 7 = true := by
      rw [Nat.testBit_lor]
      rw [show Nat.testBit 0o200 7 = true from by decide]
      exact Bool.or_true _
    rcases dest with _ | dfi
    · simp only [Fisy.makeDirectory, List.mem_singleton] at hop
      subst hop
      simp [Fisy.opForcesOwnerWrite, hbit]
    · rcases hc : env.chmodRes with _ | e
      · rcases hl : env.lchownRes with _ | e2
        · simp only [Fisy.makeDirectory, hc, hl, List.mem_cons,
            List.not_mem_nil, or_false] at hop
          rcases hop with h | h <;> subst h <;>
            simp [Fisy.opForcesOwnerWrite, hbit]
        · simp only [Fisy.makeDirectory, hc, hl, List.mem_cons,
            List.not_mem_nil, or_false] at hop
          rcases hop with h | h <;> subst h <;>
            simp [Fisy.opForcesOwnerWrite, hbit]
      · simp only [Fisy.makeDirectory, hc, List.mem_singleton] at hop
        subst hop
        simp [Fisy.opForcesOwnerWrite, hbit]

/-- C8 witness: a concrete directory pair differing exactly in the
owner-write bit is Kept. -/
theorem C8_dir_keep_ignores_owner_write_witness :
    Fisy.directoryNeedsTransfer
      (some { size := 0, mode := Fisy.modeDir + 0o555, mtimeNs := 0 })
      { size := 0, mode := Fisy.modeDir + 0o755, mtimeNs := 0 } = false :=
  (C8_dir_keep_ignores_owner_write
    { size := 0, mode := Fisy.modeDir + 0o555, mtimeNs := 0 }
    { size := 0, mode := Fisy.modeDir + 0o755, mtimeNs := 0 }).2.1
    (by decide)

/-- C3: in the pair-DFS state machine, `take` blocks exactly while the
stack is empty, workers are in flight, and no failure is latched;
after waking it yields no work when failed, or when the stack is empty
(and then, `nact` being non-negative, `nact = 0`: termination, so no
in-flight worker could still produce work); otherwise it pops the top
of the LIFO stack and increments the in-flight count. -/
theorem C3_pdfs_take (s : Fisy.PDFSState) :
    (Fisy.takeBlocked s = true ↔
      (s.stack = [] ∧ 0 < s.nact ∧ s.failed = false)) ∧
    (s.failed = true → Fisy.take s = (none, s)) ∧
    (Fisy.takeBlocked s = false → s.failed = false → s.stack = [] →
      0 ≤ s.nact → Fisy.take s = (none, s) ∧ s.nact = 0) ∧
    (∀ (l : List Fisy.FilePair) (p : Fisy.FilePair),
      s.failed = false → s.stack = l ++ [p] →
      Fisy.take s =
        (some p, { stack := l, nact := s.nact + 1, failed := false })) := by
  refine ⟨?_, ?_, ?_, ?_⟩
  · simp [Fisy.takeBlocked, List.isEmpty_iff, and_assoc]
  · intro h
    simp [Fisy.take, h]
  · intro hb hf hst hge
    have h1 : ¬ (0 < s.nact) := by
      simpa [Fisy.takeBlocked, hst, hf] using hb
    exact ⟨by simp [Fisy.take, hf, hst], by omega⟩
  · intro l p hf hst
    simp [Fisy.take, hf, hst, List.getLast?_concat, List.dropLast_concat]

/-- C3 witness: taking from a one-element stack pops that pair and
moves the in-flight count from 0 to 1. -/
theorem C3_pdfs_take_witness :
    Fisy.take { stack := [{ path := "a" }], nact := 0, failed := false } =
      (some { path := "a" }, { stack := [], nact := 1, failed := false }) := by
  simpa using
    (C3_pdfs_take { stack := [{ path := "a" }], nact := 0, failed := false
      }).2.2.2 [] { path := "a" } rfl rfl

/-- C4: for an inode record, the remaining link count decreases by
exactly one per `Fulfill`, per `Discard`, and per `FinishedFile` call
that returns the first path of an uploaded record (the subsequent
holder), and the record is removed exactly when the count reaches
zero; no other outcome of `FinishedFile` (materializer takeover,
blocked wait, not-interesting source, plain offer) changes the count;
and no operation ever resets the `uploaded` flag. -/
theorem C4_linkset_conservation (r : Fisy.inodeInfo) (p q : String)
    (src : Fisy.FileInfo) (a : Fisy.FileAttrs) :
    (Fisy.remNlinks (Fisy.Fulfill r) = r.nlink - 1 ∧
      (Fisy.Fulfill r = none ↔ r.nlink = 1)) ∧
    (Fisy.remNlinks (Fisy.Discard r p) = r.nlink - 1 ∧
      (Fisy.Discard r p = none ↔ r.nlink = 1)) ∧
    (src.isDir = false → src.attrs = some a → ¬ a.nlinks < 2 →
      a.inode ≠ 0 → r.uploaded = true →
      Fisy.FinishedFile (some r) q src =
          (.ret a.inode r.path, Fisy.decrementLink r) ∧
        Fisy.remNlinks (Fisy.decrementLink r) = r.nlink - 1 ∧
        (Fisy.decrementLink r = none ↔ r.nlink = 1)) ∧
    (src.isDir = false → src.attrs = some a → ¬ a.nlinks < 2 →
      a.inode ≠ 0 → r.uploaded = false →
      Fisy.FinishedFile (some r) q src =
        (if r.path = "" then (.ret a.inode "", some { r with path := q })
          else (.blocked, some r))) ∧
    (Fisy.offerLocked (some r) src).2 = some r ∧
    (∀ r2, Fisy.Fulfill r = some r2 → r2.uploaded = true) ∧
    (∀ r2, Fisy.Discard r p = some r2 → r2.uploaded = r.uploaded) ∧
    (∀ res slot2 r2, Fisy.FinishedFile (some r) q src = (res, slot2) →
      slot2 = some r2 → r.uploaded = true → r2.uploaded = true) := by
  have hdec1 : ∀ s : Fisy.inodeInfo,
      Fisy.remNlinks (Fisy.decrementLink s) = s.nlink - 1 := by
    intro s
    unfold Fisy.decrementLink
    split <;> simp [Fisy.remNlinks] <;> omega
  have hdec2 : ∀ s : Fisy.inodeInfo,
      (Fisy.decrementLink s = none ↔ s.nlink = 1) := by
    intro s
    unfold Fisy.decrementLink
    split <;> simp <;> omega
  have hdec : Fisy.remNlinks (Fisy.decrementLink r) = r.nlink - 1 ∧
      (Fisy.decrementLink r = none ↔ r.nlink = 1) :=
    ⟨hdec1 r, hdec2 r⟩
  have hoffer : (Fisy.offerLocked (some r) src).2 = some r := by
    unfold Fisy.offerLocked
    split
    · rfl
    · rcases src.attrs with _ | a2
      · rfl
      · simp only
        split <;> rfl
  refine ⟨⟨?_, ?_⟩, ⟨?_, ?_⟩, ?_, ?_, hoffer, ?_, ?_, ?_⟩
  · simpa using hdec1 { r with uploaded := true }
  · simpa using hdec2 { r with uploaded := true }
  · by_cases hc : r.path = p
    · simpa [Fisy.Discard, hc] using hdec1 { r with path := "" }
    · simpa [Fisy.Discard, hc] using hdec1 r
  · by_cases hc : r.path = p
    · simpa [Fisy.Discard, hc] using hdec2 { r with path := "" }
    · simpa [Fisy.Discard, hc] using hdec2 r
  · intro hdir hattrs hnl hino hup
    refine ⟨?_, hdec⟩
    unfold Fisy.FinishedFile Fisy.offerLocked
    simp [hdir, hattrs, hnl, hino, hup]
  · intro hdir hattrs hnl hino hup
    unfold Fisy.FinishedFile Fisy.offerLocked
    simp [hdir, hattrs, hnl, hino, hup]
  · intro r2 h
    unfold Fisy.Fulfill Fisy.decrementLink at h
    split at h
    · simp at h
    · injection h with h2
      subst h2
      rfl
  · intro r2 h
    by_cases hc : r.path = p <;>
      simp [Fisy.Discard, hc, Fisy.decrementLink] at h <;>
        rcases h with ⟨h1, h2⟩ <;> subst h2 <;> rfl
  · intro res slot2 r2 hff hslot hup
    rcases ho : Fisy.offerLocked (some r) src with ⟨ino, oslot⟩
    have hos : oslot = some r := by
      have h2 := hoffer
      rw [ho] at h2
      exact h2
    subst hos
    unfold Fisy.FinishedFile at hff
    rw [ho] at hff
    by_cases hz : ino = 0
    · subst hz
      simp at hff
      rcases hff with ⟨h1, h2⟩
      subst h2
      simp at hslot
      subst hslot
      exact hup
    · simp [hz, hup] at hff
      rcases hff with ⟨h1, h2⟩
      subst h2
      unfold Fisy.decrementLink at hslot
      split at hslot
      · simp at hslot
      · injection hslot with h3
        subst h3
        exact hup

/-- C4 witness: a subsequent holder's `FinishedFile` on an uploaded
two-link record returns the first path and decrements the count to
one. -/
theorem C4_linkset_conservation_witness :
    Fisy.FinishedFile (some { path := "x", uploaded := true, nlink := 2 }) "y"
        { size := 1, mode := 0, mtimeNs := 0,
          attrs := some { uid := 0, gid := 0, atimeNs := 0, inode := 42, nlinks := 2 } } =
      (.ret 42 "x", some { path := "x", uploaded := true, nlink := 1 }) := by
  have h := ((C4_linkset_conservation
    { path := "x", uploaded := true, nlink := 2 } "p" "y"
    { size := 1, mode := 0, mtimeNs := 0,
      attrs := some { uid := 0, gid := 0, atimeNs := 0, inode := 42, nlinks := 2 } }
    { uid := 0, gid := 0, atimeNs := 0, inode := 42, nlinks := 2 }).2.2.1
    (by decide) rfl (by decide) (by decide) rfl).1
  simpa [Fisy.decrementLink] using h

namespace Fisy

/-- The delays slept by any run of the `Idempotent` loop follow the
`backoffDelay` schedule, whatever the attempts and cancellation do. -/
theorem idempotentLoop_slept (attempt : Nat → Option GoErr)
    (cancelAt : Nat → Bool) :
    ∀ (fuel k j : Nat) (res : IdemOutcome) (slept : List Nat),
      idempotentLoop attempt cancelAt fuel k (backoffDelay j)
          ((List.range j).map backoffDelay) = some (res, slept) →
      slept = (List.range slept.length).map backoffDelay := by
  intro fuel
  induction fuel with
  | zero =>
    intro k j res slept h
    simp [idempotentLoop] at h
  | succ n ih =>
    intro k j res slept h
    unfold idempotentLoop at h
    cases hatt : attempt k with
    | none =>
      rw [hatt] at h
      have hs : slept = (List.range j).map backoffDelay :=
        (congrArg Prod.snd (Option.some.inj h)).symm
      subst hs
      simp
    | some e =>
      rw [hatt] at h
      dsimp only at h
      cases hr : IsRetriable e with
      | false =>
        rw [hr] at h
        rw [if_pos (show ((!false) = true) from by decide)] at h
        have hs : slept = (List.range j).map backoffDelay :=
          (congrArg Prod.snd (Option.some.inj h)).symm
        subst hs
        simp
      | true =>
        rw [hr] at h
        rw [if_neg (show ¬ ((!true) = true) from by decide)] at h
        cases hcan : cancelAt k with
        | true =>
          rw [hcan, if_pos rfl] at h
          have hs : slept = (List.range j).map backoffDelay :=
            (congrArg Prod.snd (Option.some.inj h)).symm
          subst hs
          simp
        | false =>
          rw [hcan] at h
          rw [if_neg (show ¬ ((false : Bool) = true) from by decide)] at h
          have hstep : (List.range j).map backoffDelay ++ [backoffDelay j] =
              (List.range (j + 1)).map backoffDelay := by
            rw [List.range_succ, List.map_append]
            rfl
          rw [hstep] at h
          exact ih k.succ (j + 1) res slept h

end Fisy

/-- C5: the retry helper returns nil on first success, returns a
non-retriable error unchanged without retrying, returns the context's
cancellation error when cancellation fires during a back-off,
classifies retriable errors as exactly the two transient transport
errors after unwrapping the link-error/path-error envelopes (never
not-found, permission or already-exists), and sleeps the exponential
schedule that starts at 300 ms, doubles each retry, and is capped at
one minute. -/
theorem C5_idempotent_retry (attempt : Nat → Option Fisy.GoErr)
    (cancelAt : Nat → Bool) (fuel : Nat) (e : Fisy.GoErr) :
    (attempt 0 = none →
      Fisy.Idempotent attempt cancelAt (fuel + 1) = some (.ok, [])) ∧
    (attempt 0 = some e → Fisy.IsRetriable e = false →
      Fisy.Idempotent attempt cancelAt (fuel + 1) = some (.fail e, [])) ∧
    (attempt 0 = some e → Fisy.IsRetriable e = true → cancelAt 0 = true →
      Fisy.Idempotent attempt cancelAt (fuel + 1) =
        some (.fail .ctxCanceled, [])) ∧
    (Fisy.IsRetriable e = true ↔
      (Fisy.stripPathError (Fisy.stripLinkError e) = .sshFxConnectionLost ∨
        Fisy.stripPathError (Fisy.stripLinkError e) = .sshFxNoConnection)) ∧
    (Fisy.IsRetriable .notFound = false ∧
      Fisy.IsRetriable .permission = false ∧
      Fisy.IsRetriable .alreadyExists = false ∧
      Fisy.IsRetriable (.pathError .notFound) = false ∧
      Fisy.IsRetriable (.pathError .permission) = false ∧
      Fisy.IsRetriable (.pathError .alreadyExists) = false) ∧
    (Fisy.backoffDelay 0 = 300 ∧
      (∀ k, Fisy.backoffDelay (k + 1) =
        min (2 * Fisy.backoffDelay k) Fisy.maxDelay) ∧
      (∀ k, Fisy.backoffDelay k ≤ 60000)) ∧
    (∀ (res : Fisy.IdemOutcome) (slept : List Nat),
      Fisy.Idempotent attempt cancelAt fuel = some (res, slept) →
      slept = (List.range slept.length).map Fisy.backoffDelay) := by
  refine ⟨?_, ?_, ?_, ?_, ?_, ⟨rfl, fun k => rfl, ?_⟩, ?_⟩
  · intro h
    unfold Fisy.Idempotent Fisy.idempotentLoop
    rw [h]
  · intro h hr
    unfold Fisy.Idempotent Fisy.idempotentLoop
    rw [h]
    simp [hr]
  · intro h hr hcan
    unfold Fisy.Idempotent Fisy.idempotentLoop
    rw [h]
    simp [hr, hcan]
  · unfold Fisy.IsRetriable
    split <;> simp_all
  · refine ⟨rfl, rfl, rfl, rfl, rfl, rfl⟩
  · intro k
    induction k with
    | zero => decide
    | succ n ih =>
      calc Fisy.backoffDelay (n + 1) = min (2 * Fisy.backoffDelay n) Fisy.maxDelay := rfl
        _ ≤ Fisy.maxDelay := min_le_right _ _
        _ ≤ 60000 := le_refl _
  · intro res slept h
    have h0 : (List.range 0).map Fisy.backoffDelay = ([] : List Nat) := rfl
    have hb0 : Fisy.backoffDelay 0 = Fisy.initialDelay := rfl
    unfold Fisy.Idempotent at h
    rw [← hb0, ← h0] at h
    exact Fisy.idempotentLoop_slept attempt cancelAt fuel 0 0 res slept h

/-- C5 witness: a first attempt failing with the transient
connection-lost error while the context is already cancelled makes the
helper return the cancellation error without sleeping. -/
theorem C5_idempotent_retry_witness :
    Fisy.Idempotent (fun _ => some .sshFxConnectionLost) (fun _ => true) 1 =
      some (.fail .ctxCanceled, []) :=
  (C5_idempotent_retry (fun _ => some .sshFxConnectionLost) (fun _ => true) 0
    .sshFxConnectionLost).2.2.1 rfl rfl rfl

namespace Fisy

/-- `splitSlash` never returns the empty list of components. -/
theorem splitSlash_ne_nil : ∀ l : List Char, splitSlash l ≠ [] := by
  intro l
  induction l with
  | nil => simp [splitSlash]
  | cons c rest ih =>
    unfold splitSlash
    by_cases hc : c = '/'
    · simp [hc]
    · simp only [if_neg hc]
      cases h : splitSlash rest with
      | nil => simp
      | cons a b => simp

/-- Splitting distributes over concatenation at a separator. -/
theorem splitSlash_append_slash : ∀ xs ys : List Char,
    splitSlash (xs ++ '/' :: ys) = splitSlash xs ++ splitSlash ys := by
  intro xs ys
  induction xs with
  | nil => simp [splitSlash]
  | cons c rest ih =>
    by_cases hc : c = '/'
    · subst hc
      simp [splitSlash, ih]
    · obtain ⟨a, b, h⟩ := List.exists_cons_of_ne_nil (splitSlash_ne_nil rest)
      simp [List.cons_append, splitSlash, if_neg hc, ih, h]

/-- No component produced by `splitSlash` contains the separator. -/
theorem splitSlash_no_slash : ∀ (l : List Char) (c : List Char),
    c ∈ splitSlash l → ∀ ch ∈ c, ch ≠ '/' := by
  intro l
  induction l with
  | nil =>
    intro c hc ch hch
    simp [splitSlash] at hc
    subst hc
    simp at hch
  | cons x rest ih =>
    intro c hc ch hch
    unfold splitSlash at hc
    by_cases hx : x = '/'
    · rw [if_pos hx] at hc
      rcases List.mem_cons.mp hc with h | h
      · subst h; simp at hch
      · exact ih c h ch hch
    · rw [if_neg hx] at hc
      cases h : splitSlash rest with
      | nil => exact absurd h (splitSlash_ne_nil rest)
      | cons comp comps =>
        rw [h] at hc
        rcases List.mem_cons.mp hc with h2 | h2
        · subst h2
          rcases List.mem_cons.mp hch with h3 | h3
          · subst h3; exact hx
          · exact ih comp (h ▸ List.mem_cons_self comp comps) ch h3
        · exact ih c (h ▸ List.mem_cons_of_mem comp h2) ch hch

/-- Empty components are invisible to the `Clean` component pass. -/
theorem cleanComps_skip_nil : ∀ (r : Bool) (A l acc : List (List Char)),
    cleanComps r (A ++ [] :: l) acc = cleanComps r (A ++ l) acc := by
  intro r A
  induction A with
  | nil =>
    intro l acc
    simp [cleanComps]
  | cons c A ih =>
    intro l acc
    simp only [List.cons_append]
    unfold cleanComps
    by_cases h1 : c = [] ∨ c = ['.']
    · simp only [if_pos h1]
      exact ih l acc
    · simp only [if_neg h1]
      by_cases h2 : c = ['.', '.']
      · simp only [if_pos h2]
        cases acc with
        | nil =>
          cases r with
          | true => simpa using ih l []
          | false => simpa using ih l [c]
        | cons top acc2 =>
          by_cases ht : top = ['.', '.']
          · simp only [if_pos ht]
            exact ih l (c :: top :: acc2)
          · simp only [if_neg ht]
            exact ih l acc2
      · simp only [if_neg h2]
        exact ih l (c :: acc)

/-- Every component the `Clean` pass outputs came from its input or
its accumulator. -/
theorem cleanComps_mem : ∀ (r : Bool) (input acc : List (List Char))
    (x : List Char), x ∈ cleanComps r input acc → x ∈ input ∨ x ∈ acc := by
  intro r input
  induction input with
  | nil =>
    intro acc x h
    right
    simpa [cleanComps] using h
  | cons c rest ih =>
    intro acc x h
    unfold cleanComps at h
    by_cases h1 : c = [] ∨ c = ['.']
    · rw [if_pos h1] at h
      rcases ih acc x h with h2 | h2
      · exact Or.inl (List.mem_cons_of_mem _ h2)
      · exact Or.inr h2
    · rw [if_neg h1] at h
      by_cases h2 : c = ['.', '.']
      · rw [if_pos h2] at h
        cases acc with
        | nil =>
          cases r with
          | true =>
            simp only [if_pos rfl] at h
            rcases ih [] x h with h3 | h3
            · exact Or.inl (List.mem_cons_of_mem _ h3)
            · simp at h3
          | false =>
            simp only at h
            rcases ih [c] x h with h3 | h3
            · exact Or.inl (List.mem_cons_of_mem _ h3)
            · simp at h3
              subst h3
              exact Or.inl (List.mem_cons_self _ _)
        | cons top acc2 =>
          by_cases ht : top = ['.', '.']
          · simp only [if_pos ht] at h
            rcases ih (c :: top :: acc2) x h with h3 | h3
            · exact Or.inl (List.mem_cons_of_mem _ h3)
            · rcases List.mem_cons.mp h3 with h4 | h4
              · subst h4; exact Or.inl (List.mem_cons_self _ _)
              · exact Or.inr h4
          · simp only [if_neg ht] at h
            rcases ih acc2 x h with h3 | h3
            · exact Or.inl (List.mem_cons_of_mem _ h3)
            · exact Or.inr (List.mem_cons_of_mem _ h3)
      · rw [if_neg h2] at h
        rcases ih (c :: acc) x h with h3 | h3
        · exact Or.inl (List.mem_cons_of_mem _ h3)
        · rcases List.mem_cons.mp h3 with h4 | h4
          · subst h4; exact Or.inl (List.mem_cons_self _ _)
          · exact Or.inr h4

/-- `takeWhile` keeps a whole separator-free list. -/
theorem takeWhile_no_slash : ∀ l : List Char, (∀ c ∈ l, c ≠ '/') →
    l.takeWhile (fun c => c != '/') = l := by
  intro l
  induction l with
  | nil => intro _; rfl
  | cons c rest ih =>
    intro h
    have hc : c ≠ '/' := h c (List.mem_cons_self _ _)
    simp only [List.takeWhile_cons]
    rw [if_pos (by simpa using hc)]
    rw [ih (fun x hx => h x (List.mem_cons_of_mem _ hx))]

/-- `takeWhile` stops exactly at the separator after a separator-free
prefix. -/
theorem takeWhile_append_slash : ∀ (l t : List Char), (∀ c ∈ l, c ≠ '/') →
    (l ++ '/' :: t).takeWhile (fun c => c != '/') = l := by
  intro l t
  induction l with
  | nil =>
    intro _
    simp [List.takeWhile_cons]
  | cons c rest ih =>
    intro h
    have hc : c ≠ '/' := h c (List.mem_cons_self _ _)
    simp only [List.cons_append, List.takeWhile_cons]
    rw [if_pos (by simpa using hc)]
    rw [ih (fun x hx => h x (List.mem_cons_of_mem _ hx))]

end Fisy

namespace Fisy

/-- A `.` component is invisible to the `Clean` component pass. -/
theorem cleanComps_skip_dot (r : Bool) (l acc : List (List Char)) :
    cleanComps r (['.'] :: l) acc = cleanComps r l acc := by
  simp [cleanComps]

/-- Splitting after a `./` prefix. -/
theorem splitSlash_dot_slash (l : List Char) :
    splitSlash ('.' :: '/' :: l) = ['.'] :: splitSlash l := by
  simp [splitSlash]

end Fisy

/-- C9 counterexample: resolving `..` against the root `.` yields
`..`, whose first component is `..` — a user-supplied path can escape
the file-system root, so the claim "for every q, resolving q against
the root never yields a path whose first component is `..`" is
false. -/
theorem C9_resolve_counterexample :
    Fisy.Path.Resolve "." ".." = ".." ∧
    Fisy.firstComp (Fisy.Path.Resolve "." "..") = ".." := by
  constructor <;> decide

/-- C9 (amended): `Path.Resolve` joins the components normalizing `.`
and `..`, and a leading separator in the second argument is treated as
relative (for a non-empty base), so an absolute second argument cannot
escape; and resolving a second argument with no `..` components
against the root never yields a path whose first component is `..`.
(A `..` component, however, can escape: see the counterexample.) -/
theorem C9_resolve_amended (p q : String) :
    (p ≠ "" → Fisy.Path.Resolve p ("/" ++ q) = Fisy.Path.Resolve p q) ∧
    (['.', '.'] ∉ Fisy.splitSlash q.data →
      Fisy.firstComp (Fisy.Path.Resolve "." q) ≠ "..") := by
  constructor
  · intro hp
    have hd : p.data ≠ [] := by
      intro h
      exact hp (String.ext h)
    obtain ⟨c, t, hct⟩ := List.exists_cons_of_ne_nil hd
    show String.mk (Fisy.joinChars p.data ("/" ++ q).data) =
      String.mk (Fisy.joinChars p.data q.data)
    have hdq : ("/" ++ q).data = '/' :: q.data := by
      rw [String.data_append]
      rfl
    rw [hdq, hct]
    apply congrArg
    unfold Fisy.joinChars
    rw [if_neg (by simp : ¬(c :: t = [])), if_neg (by simp : ¬(c :: t = []))]
    unfold Fisy.cleanChars
    rw [if_neg (by simp : ¬((c :: t) ++ '/' :: '/' :: q.data = [])),
      if_neg (by simp : ¬((c :: t) ++ '/' :: q.data = []))]
    have hh1 : ((c :: t) ++ '/' :: '/' :: q.data).head? = some c := by simp
    have hh2 : ((c :: t) ++ '/' :: q.data).head? = some c := by simp
    rw [hh1, hh2]
    have hsp : Fisy.splitSlash ('/' :: q.data) = [] :: Fisy.splitSlash q.data := by
      simp [Fisy.splitSlash]
    rw [Fisy.splitSlash_append_slash, Fisy.splitSlash_append_slash, hsp,
      Fisy.cleanComps_skip_nil, Fisy.cleanComps_skip_nil]
  · intro hq
    show Fisy.firstComp (String.mk
      (Fisy.joinChars ("." : String).data q.data)) ≠ ".."
    unfold Fisy.joinChars
    rw [if_neg (by decide : ¬(("." : String).data = []))]
    have harg : ("." : String).data ++ '/' :: q.data = '.' :: '/' :: q.data := rfl
    rw [harg]
    unfold Fisy.cleanChars
    rw [if_neg (by simp : ¬('.' :: '/' :: q.data = []))]
    rw [if_neg (by simp : ¬((('.' :: '/' :: q.data).head? == some '/') = true))]
    rw [Fisy.splitSlash_dot_slash, Fisy.cleanComps_skip_dot]
    by_cases hc : Fisy.cleanComps false (Fisy.splitSlash q.data) [] = []
    · rw [if_pos hc]
      decide
    · rw [if_neg hc]
      obtain ⟨c0, rest, hc0⟩ := List.exists_cons_of_ne_nil hc
      have hmem : c0 ∈ Fisy.splitSlash q.data := by
        rcases Fisy.cleanComps_mem false (Fisy.splitSlash q.data) [] c0
          (by rw [hc0]; exact List.mem_cons_self _ _) with h | h
        · exact h
        · simp at h
      have hne : c0 ≠ ['.', '.'] := fun h => hq (h ▸ hmem)
      have hnos : ∀ ch ∈ c0, ch ≠ '/' :=
        Fisy.splitSlash_no_slash q.data c0 hmem
      rw [hc0]
      intro habs
      apply hne
      have hdata : (Fisy.firstComp
          (String.mk (Fisy.joinComps (c0 :: rest)))).data = "..".data :=
        congrArg String.data habs
      cases rest with
      | nil =>
        rw [show Fisy.joinComps [c0] = c0 from by simp [Fisy.joinComps]] at hdata
        rw [show (Fisy.firstComp (String.mk c0)).data =
          c0.takeWhile (fun ch => ch != '/') from rfl] at hdata
        rw [Fisy.takeWhile_no_slash c0 hnos] at hdata
        exact hdata
      | cons c1 r2 =>
        rw [show Fisy.joinComps (c0 :: c1 :: r2) =
          c0 ++ '/' :: Fisy.joinComps (c1 :: r2) from by
            simp [Fisy.joinComps]] at hdata
        rw [show (Fisy.firstComp (String.mk
          (c0 ++ '/' :: Fisy.joinComps (c1 :: r2)))).data =
          (c0 ++ '/' :: Fisy.joinComps (c1 :: r2)).takeWhile
            (fun ch => ch != '/') from rfl] at hdata
        rw [Fisy.takeWhile_append_slash c0 _ hnos] at hdata
        exact hdata

/-- C9 witness: a leading separator is treated as relative (the pair
pinned by `fs_test.go`), and a `..`-free path resolved against the
root does not begin with `..`. -/
theorem C9_resolve_amended_witness :
    Fisy.Path.Resolve "dir" ("/" ++ "dir2/base") =
        Fisy.Path.Resolve "dir" "dir2/base" ∧
    Fisy.firstComp (Fisy.Path.Resolve "." "a/b") ≠ ".." :=
  ⟨(C9_resolve_amended "dir" "dir2/base").1 (by decide),
    (C9_resolve_amended "dir" "a/b").2 (by decide)⟩

/-- C7 (spec-modelled): COW snapshot construction fails — with the
"need newer timestamp" error, constructing no snapshot — whenever the
formatted timestamp does not compare strictly greater, as a string
under lexicographic comparison, than the base name of the chosen read
root; when the comparison holds, construction succeeds with
`write_root = <host>/<ts>`; and every successful construction
satisfies both the comparison and that write root. -/
theorem C7_newcow_timestamp_check (host ts : String)
    (hl gl : Fisy.ReadlinkRes) (rr : String) (roots : Fisy.COWRoots) :
    (host ≠ "" → Fisy.cowReadRoot host ts hl gl = .ok rr →
      ¬ Fisy.strLt (Fisy.PathBase rr).data ts.data = true →
      Fisy.NewCOW host ts hl gl = .error .needNewerTimestamp) ∧
    (host ≠ "" → Fisy.cowReadRoot host ts hl gl = .ok rr →
      Fisy.strLt (Fisy.PathBase rr).data ts.data = true →
      Fisy.NewCOW host ts hl gl =
        .ok { rroot := rr, wroot := Fisy.Path.Resolve host ts }) ∧
    (Fisy.NewCOW host ts hl gl = .ok roots →
      Fisy.strLt (Fisy.PathBase roots.rroot).data ts.data = true ∧
      roots.wroot = Fisy.Path.Resolve host ts) := by
  refine ⟨?_, ?_, ?_⟩
  · intro hh hrr hlt
    unfold Fisy.NewCOW
    rw [if_neg hh, hrr]
    dsimp only
    rw [if_neg hlt]
  · intro hh hrr hlt
    unfold Fisy.NewCOW
    rw [if_neg hh, hrr]
    dsimp only
    rw [if_pos hlt]
  · intro h
    unfold Fisy.NewCOW at h
    by_cases hh : host = ""
    · rw [if_pos hh] at h
      simp at h
    · rw [if_neg hh] at h
      cases hcr : Fisy.cowReadRoot host ts hl gl with
      | error e =>
        rw [hcr] at h
        simp at h
      | ok rr2 =>
        rw [hcr] at h
        dsimp only at h
        by_cases hlt : Fisy.strLt (Fisy.PathBase rr2).data ts.data = true
        · rw [if_pos hlt] at h
          injection h with h2
          subst h2
          exact ⟨hlt, rfl⟩
        · rw [if_neg hlt] at h
          simp at h

/-- C7 witness: with a previous per-host snapshot `a` and timestamp
`b > a`, construction succeeds with the expected roots. -/
theorem C7_newcow_timestamp_check_witness :
    Fisy.NewCOW "h" "b" (.found "a") .notFoundErr =
      .ok { rroot := Fisy.Path.Resolve "h" "a",
            wroot := Fisy.Path.Resolve "h" "b" } :=
  (C7_newcow_timestamp_check "h" "b" (.found "a") .notFoundErr
    (Fisy.Path.Resolve "h" "a") { rroot := "", wroot := "" }).2.1
    (by decide) rfl (by decide)

namespace Fisy

/-- `decrementLink` deletes the record exactly when the count reaches
zero. -/
theorem decrementLink_eq_none (s : inodeInfo) :
    decrementLink s = none ↔ s.nlink = 1 := by
  unfold decrementLink
  split <;> simp <;> omega

/-- A caller that finds the record unclaimed (`first_path` empty, not
uploaded) writes its own path into it and becomes the materializer. -/
theorem finishedFile_materializer (r : inodeInfo) (q : String)
    (src : FileInfo) (a : FileAttrs) (hdir : src.isDir = false)
    (hattrs : src.attrs = some a) (hnl : ¬ a.nlinks < 2)
    (hino : a.inode ≠ 0) (hup : r.uploaded = false) (hpath : r.path = "") :
    FinishedFile (some r) q src = (.ret a.inode "", some { r with path := q }) := by
  unfold FinishedFile offerLocked
  simp [hdir, hattrs, hnl, hino, hup, hpath]

/-- A source that is not hardlink-interesting (no system attributes)
passes through `FinishedFile` with inode 0 and an untouched slot. -/
theorem finishedFile_not_interesting (slot : Option inodeInfo) (q : String)
    (src : FileInfo) (hattrs : src.attrs = none) :
    FinishedFile slot q src = (.ret 0 "", slot) := by
  unfold FinishedFile offerLocked
  by_cases hd : src.isDir = true
  · simp [hd]
  · simp [hd, hattrs]

end Fisy

/-- C2 (spec-modelled): when the materializer's per-pair transfer body
finishes, the scope exit calls `Fulfill` if the body returned
successfully or with the discarded signal, and otherwise calls
`Discard` with its path; `Discard` clears `first_path`, the record
survives exactly while the remaining link count stays positive, and on
the surviving record a subsequent holder's `FinishedFile` makes that
holder the new materializer, so it can retry. -/
theorem C2_materializer_scope_exit
    (path q : String) (src : Fisy.FileInfo) (dest : Option Fisy.FileInfo)
    (env : Fisy.FileEnv) (a : Fisy.FileAttrs) (r : Fisy.inodeInfo)
    (berr : Option Fisy.GoErr) (ops : List Fisy.FsOp) (st : Fisy.StatsDelta)
    (hdir : src.isDir = false) (hattrs : src.attrs = some a)
    (hnl : ¬ a.nlinks < 2) (hino : a.inode ≠ 0)
    (hup : r.uploaded = false) (hpath : r.path = "")
    (hbody : Fisy.transferBody { path := path, src := some src, dest := dest }
      src env = (berr, ops, st)) :
    (berr = none ∨ berr = some .discarded →
      Fisy.transferFile { path := path, src := some src, dest := dest }
          (some r) env =
        .done (if berr = some .discarded then none else berr)
          (Fisy.Fulfill { r with path := path }) ops st) ∧
    (¬ (berr = none ∨ berr = some .discarded) →
      Fisy.transferFile { path := path, src := some src, dest := dest }
          (some r) env =
        .done berr (Fisy.Discard { r with path := path } path) ops st) ∧
    (Fisy.Discard { r with path := path } path =
      Fisy.decrementLink { r with path := "" }) ∧
    (Fisy.Discard { r with path := path } path = none ↔ r.nlink = 1) ∧
    (∀ r3, Fisy.Discard { r with path := path } path = some r3 →
      r3.nlink = r.nlink - 1 ∧ r3.path = "" ∧ r3.uploaded = false ∧
      Fisy.FinishedFile (some r3) q src =
        (.ret a.inode "", some { r3 with path := q })) := by
  have hff := Fisy.finishedFile_materializer r path src a hdir hattrs hnl
    hino hup hpath
  have hmain :
      Fisy.transferFile { path := path, src := some src, dest := dest }
        (some r) env =
      .done (if berr = some .discarded then none else berr)
        (if berr = none ∨ berr = some .discarded then
          Fisy.Fulfill { r with path := path }
         else Fisy.Discard { r with path := path } path) ops st := by
    unfold Fisy.transferFile
    dsimp only
    rw [hff]
    dsimp only
    rw [if_neg (by simp : ¬ (a.inode ≠ 0 ∧ ("" : String) ≠ ""))]
    rw [hbody]
    dsimp only
    rw [if_neg hino]
  have hdisc : Fisy.Discard { r with path := path } path =
      Fisy.decrementLink { r with path := "" } := by
    unfold Fisy.Discard
    rw [if_pos rfl]
  refine ⟨?_, ?_, hdisc, ?_, ?_⟩
  · intro hok
    rw [hmain, if_pos hok]
  · intro hko
    have hbe : ¬ berr = some Fisy.GoErr.discarded := fun h => hko (Or.inr h)
    rw [hmain, if_neg hko, if_neg hbe]
  · rw [hdisc]
    simpa using Fisy.decrementLink_eq_none { r with path := "" }
  · intro r3 h3
    rw [hdisc] at h3
    unfold Fisy.decrementLink at h3
    split at h3
    · simp at h3
    · injection h3 with h4
      subst h4
      refine ⟨rfl, rfl, hup, ?_⟩
      exact Fisy.finishedFile_materializer _ q src a hdir hattrs hnl hino
        hup rfl

/-- Closed witness for C2: a materializer (record unclaimed, two links)
whose body fails with a mocked error discards; the record survives with
`first_path` cleared and one link left. -/
theorem C2_materializer_scope_exit_witness :
    Fisy.transferFile
      { path := "a",
        src := some { size := 1,
                      mode := 420,
                      mtimeNs := 0,
                      attrs := some { uid := 0,
                                      gid := 0,
                                      atimeNs := 0,
                                      inode := 7,
                                      nlinks := 2 } },
        dest := none }
      (some { path := "",
              uploaded := false,
              nlink := 2 })
      { openRes := some .mocked,
        readlinkRes := .ok "t",
        removeRes := none,
        linkRes := none,
        symlinkRes := none,
        keepRes := none,
        createRes := none,
        createRetryRes := none,
        chmodRes := none,
        copyRes := none,
        chownRes := none,
        closeRes := none,
        chtimesRes := none } =
    .done (some .mocked)
      (some { path := "",
              uploaded := false,
              nlink := 1 })
      [] {} := by
  have h := (C2_materializer_scope_exit "a" "b"
    { size := 1,
      mode := 420,
      mtimeNs := 0,
      attrs := some { uid := 0,
                      gid := 0,
                      atimeNs := 0,
                      inode := 7,
                      nlinks := 2 } }
    none
    { openRes := some .mocked,
      readlinkRes := .ok "t",
      removeRes := none,
      linkRes := none,
      symlinkRes := none,
      keepRes := none,
      createRes := none,
      createRetryRes := none,
      chmodRes := none,
      copyRes := none,
      chownRes := none,
      closeRes := none,
      chtimesRes := none }
    { uid := 0,
      gid := 0,
      atimeNs := 0,
      inode := 7,
      nlinks := 2 }
    { path := "",
      uploaded := false,
      nlink := 2 }
    (some .mocked) [] {}
    (by decide) rfl (by decide) (by decide) rfl rfl rfl).2.1
    (by simp)
  rw [h]
  rfl

/-- C6 (spec-modelled): a source that vanishes between listing and
transfer (open reporting not-found inside `copyFile`, or readlink
inside `createSymlink`) is converted into the internal discarded
signal and handled locally: the per-pair result carries no error, no
destination operation is issued, and `discardedFiles` is incremented
by one — both for a file with a single link (no hardlink record) and
for a multi-linked file (whose materializer still fulfills its
record). -/
theorem C6_vanished_source_discarded
    (path : String) (src : Fisy.FileInfo) (env : Fisy.FileEnv)
    (e : Fisy.GoErr) (hsym : src.isSymlink = false)
    (hopen : env.openRes = some e) (hne : Fisy.IsNotExist e = true) :
    Fisy.copyFile path src env =
      (some .discarded, [], { discardedFiles := 1 }) ∧
    (src.attrs = none →
      Fisy.transferFile { path := path, src := some src, dest := none }
          none env =
        .done none none [] { discardedFiles := 1 }) ∧
    (∀ a : Fisy.FileAttrs, src.attrs = some a → src.isDir = false →
      ¬ a.nlinks < 2 → a.inode ≠ 0 →
      Fisy.transferFile { path := path, src := some src, dest := none }
          none env =
        .done none
          (Fisy.Fulfill
            { path := path, uploaded := false, nlink := (a.nlinks : Int) })
          [] { discardedFiles := 1 }) ∧
    (∀ env2 : Fisy.FileEnv, env2.readlinkRes = .error e →
      Fisy.createSymlink path env2 =
        (some .discarded, [], { discardedFiles := 1 })) := by
  have hcopy : Fisy.copyFile path src env =
      (some .discarded, [], { discardedFiles := 1 }) := by
    unfold Fisy.copyFile
    rw [hopen]
    simp [hne]
  refine ⟨hcopy, ?_, ?_, ?_⟩
  · intro hattrs
    have hff : Fisy.FinishedFile none path src = (.ret 0 "", none) := by
      unfold Fisy.FinishedFile Fisy.offerLocked
      cases hd : src.isDir <;> simp [hattrs]
    unfold Fisy.transferFile
    dsimp only
    rw [hff]
    dsimp only
    rw [if_neg (by simp : ¬ ((0 : Nat) ≠ 0 ∧ ("" : String) ≠ ""))]
    unfold Fisy.transferBody
    dsimp only
    rw [hsym, if_neg (by simp : ¬ (false = true)), hcopy]
    simp
  · intro a hattrs hdir hnl hino
    have hff : Fisy.FinishedFile none path src =
        (.ret a.inode "",
          some { path := path, uploaded := false,
                 nlink := (a.nlinks : Int) }) := by
      unfold Fisy.FinishedFile Fisy.offerLocked
      simp [hdir, hattrs, hnl, hino]
    unfold Fisy.transferFile
    dsimp only
    rw [hff]
    dsimp only
    rw [if_neg (by simp : ¬ (a.inode ≠ 0 ∧ ("" : String) ≠ ""))]
    unfold Fisy.transferBody
    dsimp only
    rw [hsym, if_neg (by simp : ¬ (false = true)), hcopy]
    simp [hino]
  · intro env2 herr
    unfold Fisy.createSymlink
    rw [herr]
    simp [hne]

/-- Closed witness for C6: with the source's open returning not-found,
a single-link file and a two-link file each finish with no error, no
destination op and one discarded file; readlink not-found discards a
symlink likewise. -/
theorem C6_vanished_source_discarded_witness :
    Fisy.transferFile
      { path := "a",
        src := some { size := 1, mode := 420, mtimeNs := 0, attrs := none },
        dest := none }
      none
      { openRes := some .notFound,
        readlinkRes := .error .notFound,
        removeRes := none,
        linkRes := none,
        symlinkRes := none,
        keepRes := none,
        createRes := none,
        createRetryRes := none,
        chmodRes := none,
        copyRes := none,
        chownRes := none,
        closeRes := none,
        chtimesRes := none } =
      .done none none [] { discardedFiles := 1 } ∧
    Fisy.transferFile
      { path := "a",
        src := some { size := 1,
                      mode := 420,
                      mtimeNs := 0,
                      attrs := some { uid := 0,
                                      gid := 0,
                                      atimeNs := 0,
                                      inode := 7,
                                      nlinks := 2 } },
        dest := none }
      none
      { openRes := some .notFound,
        readlinkRes := .error .notFound,
        removeRes := none,
        linkRes := none,
        symlinkRes := none,
        keepRes := none,
        createRes := none,
        createRetryRes := none,
        chmodRes := none,
        copyRes := none,
        chownRes := none,
        closeRes := none,
        chtimesRes := none } =
      .done none (some { path := "a", uploaded := true, nlink := 1 })
        [] { discardedFiles := 1 } := by
  constructor
  · exact (C6_vanished_source_discarded "a"
      { size := 1, mode := 420, mtimeNs := 0, attrs := none }
      { openRes := some .notFound,
        readlinkRes := .error .notFound,
        removeRes := none,
        linkRes := none,
        symlinkRes := none,
        keepRes := none,
        createRes := none,
        createRetryRes := none,
        chmodRes := none,
        copyRes := none,
        chownRes := none,
        closeRes := none,
        chtimesRes := none }
      .notFound (by decide) rfl (by decide)).2.1 rfl
  · have h := (C6_vanished_source_discarded "a"
      { size := 1,
        mode := 420,
        mtimeNs := 0,
        attrs := some { uid := 0,
                        gid := 0,
                        atimeNs := 0,
                        inode := 7,
                        nlinks := 2 } }
      { openRes := some .notFound,
        readlinkRes := .error .notFound,
        removeRes := none,
        linkRes := none,
        symlinkRes := none,
        keepRes := none,
        createRes := none,
        createRetryRes := none,
        chmodRes := none,
        copyRes := none,
        chownRes := none,
        closeRes := none,
        chtimesRes := none }
      .notFound (by decide) rfl (by decide)).2.2.1
      { uid := 0, gid := 0, atimeNs := 0, inode := 7, nlinks := 2 }
      rfl (by decide) (by decide) (by decide)
    rw [h]
    rfl

namespace Fisy

/-- A step of a system with no workers does nothing. -/
theorem pdfsStep_no_workers (fn : FilePair → List FilePair × Option GoErr)
    (sys : PDFSSys) (h : sys.workers = []) (i : Nat) :
    pdfsStep fn sys i = sys := by
  unfold pdfsStep
  rw [h]
  simp

/-- A whole schedule over a system with no workers does nothing. -/
theorem pdfsExec_no_workers (fn : FilePair → List FilePair × Option GoErr)
    (sched : List Nat) (sys : PDFSSys) (h : sys.workers = []) :
    pdfsExec fn sys sched = sys := by
  induction sched generalizing sys with
  | nil => rfl
  | cons a t ih =>
    show t.foldl (pdfsStep fn) (pdfsStep fn sys a) = sys
    rw [pdfsStep_no_workers fn sys h a]
    exact ih sys h

end Fisy

/-- C10: `NewUpload` without `WithConcurrency` leaves the worker count
at its Go zero value 0, so after a successful root listing the run
spawns zero workers: under every schedule `errgroup.Wait` observes no
worker error, `Run` returns nil, and the per-pair callback is invoked
on no pair. -/
theorem C10_zero_workers_noop
    (fps : List Fisy.FilePair)
    (fn : Fisy.FilePair → List Fisy.FilePair × Option Fisy.GoErr)
    (sched : List Nat) (listing : Except Fisy.GoErr (List Fisy.FilePair))
    (hl : listing = .ok fps) :
    (Fisy.NewUpload []).nconc = 0 ∧
    Fisy.processRun listing (Fisy.NewUpload []).nconc fn sched =
      (none, []) := by
  subst hl
  refine ⟨rfl, ?_⟩
  show (Fisy.egWait (Fisy.pdfsExec fn (Fisy.pdfsInit fps 0) sched),
    (Fisy.pdfsExec fn (Fisy.pdfsInit fps 0) sched).log) = (none, [])
  rw [Fisy.pdfsExec_no_workers fn sched (Fisy.pdfsInit fps 0) rfl]
  rfl

/-- Closed witness for C10: one root pair, a callback that would
produce children, a busy schedule — the run still ends with no error
and an empty log. -/
theorem C10_zero_workers_noop_witness :
    Fisy.processRun (.ok [{ path := "r" }]) (Fisy.NewUpload []).nconc
      (fun fp => ([{ path := fp.path ++ "/c" }], none)) [0, 1, 2, 0] =
    (none, []) :=
  (C10_zero_workers_noop [{ path := "r" }]
    (fun fp => ([{ path := fp.path ++ "/c" }], none)) [0, 1, 2, 0]
    (.ok [{ path := "r" }]) rfl).2
